import Mathlib

/-!
Verification model of the Migr8 migration engine.

The definitions below are a shallow embedding of the Go sources:
  * `internal/models/migration.go`  — migration records, directory parsing,
    checksum computation, pending-set computation, lookup by filename;
  * `pkg/database/connection.go` (package `migration`) — the `Migrator`
    orchestration: `Up`, `Down`, `applyMigration`, `rollbackMigration`,
    `recordMigrationInTx`, `removeMigrationInTx`, `Status`.

Machine-word arithmetic (the MD5 checksum) is modelled on `Nat` with
explicit reduction modulo 2^32.  The database is modelled as an abstract
data state `σ` together with the ledger table (the list of
`(filename, checksum)` rows in insertion order); a SQL statement is
executed by an abstract `exec : String → σ → Option σ` where `none`
models a failing statement.  Transactions are modelled by the usual
"tentative state" semantics: effects of a transaction become visible only
when the whole transaction commits, which is exactly what the Go code's
`Begin / deferred Rollback / Commit` pattern guarantees.
-/

namespace Migr8

/-! ## Time values (Go `time.Time`, restricted to what the engine uses)

`LoadMigrations` parses the 14-digit prefix with layout `20060102150405`
(`YYYYMMDDHHMMSS`).  Only ordering (`time.Time.Before`) is consumed, so a
time value is modelled by its six calendar fields. -/

structure Time where
  year : Nat
  month : Nat
  day : Nat
  hour : Nat
  minute : Nat
  second : Nat
deriving DecidableEq

/-- The zero value of Go `time.Time`: January 1, year 1, 00:00:00. -/
def zeroTime : Time := ⟨1, 1, 1, 0, 0, 0⟩

/-- Field-lexicographic encoding; each field below `year` is < 100, so
ordering the encodings is ordering the field tuples lexicographically. -/
def Time.key (t : Time) : Nat :=
  ((((t.year * 100 + t.month) * 100 + t.day) * 100 + t.hour) * 100
    + t.minute) * 100 + t.second

/-- Go `time.Time.Before` on the values the engine constructs. -/
def Time.before (t u : Time) : Bool := t.key < u.key

def isLeapYear (y : Nat) : Bool := (y % 4 = 0 && y % 100 ≠ 0) || y % 400 = 0

def daysInMonth (y m : Nat) : Nat :=
  if m = 2 then (if isLeapYear y then 29 else 28)
  else if m = 4 ∨ m = 6 ∨ m = 9 ∨ m = 11 then 30
  else 31

def digitsToNat (cs : List Char) : Nat :=
  cs.foldl (fun n c => n * 10 + (c.toNat - 48)) 0

/-- Go `time.Parse("20060102150405", s)`: fourteen digits, split into
year/month/day/hour/minute/second, with range validation of every field
except the year (Go validates month 1–12, day 1–days-in-month,
hour 0–23, minute 0–59, second 0–59; any four-digit year, including
0000, is accepted).  Returns `none` exactly when Go returns an error. -/
def parseTimestamp (s : String) : Option Time :=
  let cs := s.data
  if cs.length = 14 ∧ cs.all Char.isDigit then
    let y := digitsToNat (cs.take 4)
    let mo := digitsToNat ((cs.drop 4).take 2)
    let d := digitsToNat ((cs.drop 6).take 2)
    let h := digitsToNat ((cs.drop 8).take 2)
    let mi := digitsToNat ((cs.drop 10).take 2)
    let sec := digitsToNat ((cs.drop 12).take 2)
    if 1 ≤ mo ∧ mo ≤ 12 ∧ 1 ≤ d ∧ d ≤ daysInMonth y mo
        ∧ h ≤ 23 ∧ mi ≤ 59 ∧ sec ≤ 59 then
      some ⟨y, mo, d, h, mi, sec⟩
    else none
  else none

/-- Timestamp actually stored on the record by `LoadMigrations` lines
63–70: `parsedTime, _ := time.Parse("20060102150405", timestamp)` — the
parse error is discarded and the zero `time.Time` is kept on failure. -/
def loadedTimestamp (ts : String) : Time :=
  (parseTimestamp ts).getD zeroTime

/-! ## Go string primitives

Structural models of the `strings` package functions the engine uses
(`Split`, `TrimSpace`, `HasPrefix` specialised to the `--` marker),
written over `List Char` so every definition reduces by computation. -/

/-- Whether `pat` occurs at the head of `cs`. -/
def leadsWith : List Char → List Char → Bool
  | [], _ => true
  | _ :: _, [] => false
  | a :: as, b :: bs => a = b && leadsWith as bs

/-- Whether `pat` occurs at the end of `cs`. -/
def trailsWith (pat cs : List Char) : Bool := leadsWith pat.reverse cs.reverse

/-- Go `strings.Split(s, ";")` on the character list: split at every
occurrence of `';'`; n separators yield n+1 pieces, the empty string
yields one empty piece. -/
def splitSemiChars : List Char → List (List Char)
  | [] => [[]]
  | c :: rest =>
    match splitSemiChars rest with
    | [] => [[]]
    | h :: t => if c = ';' then [] :: h :: t else (c :: h) :: t

/-- Go `strings.Split(s, ";")`. -/
def goSplitSemi (s : String) : List String :=
  (splitSemiChars s.data).map (fun l => ⟨l⟩)

/-- Go `unicode.IsSpace` restricted to the characters it classifies as
space in Latin-1: space, tab, newline, vertical tab, form feed,
carriage return, next-line and no-break space. -/
def isGoSpace (c : Char) : Bool :=
  c = ' ' ∨ c = '\t' ∨ c = '\n' ∨ c = '\x0b' ∨ c = '\x0c' ∨ c = '\r'
    ∨ c = '\x85' ∨ c = '\xa0'

/-- Go `strings.TrimSpace`. -/
def goTrim (s : String) : String :=
  ⟨((s.data.dropWhile isGoSpace).reverse.dropWhile isGoSpace).reverse⟩

/-- Go `strings.HasPrefix(s, "--")`. -/
def hasDashDash (s : String) : Bool :=
  match s.data with
  | '-' :: '-' :: _ => true
  | _ => false

/-! ## Filename pattern

`migrationRegex = ^(\d{14})_(.+)\.(up|down)\.sql$`.  The two possible
direction suffixes `.up.sql` / `.down.sql` can never both terminate the
same name, so the match (timestamp, name, direction) is unambiguous. -/

def matchMigrationFile (name : String) : Option (String × String × String) :=
  let cs := name.data
  if (cs.take 14).length = 14 ∧ (cs.take 14).all Char.isDigit then
    if leadsWith ['_'] (cs.drop 14) then
      let rest := cs.drop 15
      if trailsWith ".up.sql".data rest ∧ 7 < rest.length then
        some (⟨cs.take 14⟩, ⟨rest.take (rest.length - 7)⟩, "up")
      else if trailsWith ".down.sql".data rest ∧ 9 < rest.length then
        some (⟨cs.take 14⟩, ⟨rest.take (rest.length - 9)⟩, "down")
      else none
    else none
  else none

/-! ## MD5 (Go `crypto/md5.Sum`) over `Nat`, words reduced mod 2^32 -/

def w32 : Nat := 4294967296

def leftrot (x n : Nat) : Nat :=
  ((x <<< n) % w32) ||| (x >>> (32 - n))

def md5K : List Nat :=
  [0xd76aa478, 0xe8c7b756, 0x242070db, 0xc1bdceee,
   0xf57c0faf, 0x4787c62a, 0xa8304613, 0xfd469501,
   0x698098d8, 0x8b44f7af, 0xffff5bb1, 0x895cd7be,
   0x6b901122, 0xfd987193, 0xa679438e, 0x49b40821,
   0xf61e2562, 0xc040b340, 0x265e5a51, 0xe9b6c7aa,
   0xd62f105d, 0x02441453, 0xd8a1e681, 0xe7d3fbc8,
   0x21e1cde6, 0xc33707d6, 0xf4d50d87, 0x455a14ed,
   0xa9e3e905, 0xfcefa3f8, 0x676f02d9, 0x8d2a4c8a,
   0xfffa3942, 0x8771f681, 0x6d9d6122, 0xfde5380c,
   0xa4beea44, 0x4bdecfa9, 0xf6bb4b60, 0xbebfbc70,
   0x289b7ec6, 0xeaa127fa, 0xd4ef3085, 0x04881d05,
   0xd9d4d039, 0xe6db99e5, 0x1fa27cf8, 0xc4ac5665,
   0xf4292244, 0x432aff97, 0xab9423a7, 0xfc93a039,
   0x655b59c3, 0x8f0ccc92, 0xffeff47d, 0x85845dd1,
   0x6fa87e4f, 0xfe2ce6e0, 0xa3014314, 0x4e0811a1,
   0xf7537e82, 0xbd3af235, 0x2ad7d2bb, 0xeb86d391]

def md5S : List Nat :=
  [7, 12, 17, 22, 7, 12, 17, 22, 7, 12, 17, 22, 7, 12, 17, 22,
   5, 9, 14, 20, 5, 9, 14, 20, 5, 9, 14, 20, 5, 9, 14, 20,
   4, 11, 16, 23, 4, 11, 16, 23, 4, 11, 16, 23, 4, 11, 16, 23,
   6, 10, 15, 21, 6, 10, 15, 21, 6, 10, 15, 21, 6, 10, 15, 21]

def mask32 : Nat := 4294967295

def md5Round (m : List Nat) (st : Nat × Nat × Nat × Nat) (i : Nat) :
    Nat × Nat × Nat × Nat :=
  let (a, b, c, d) := st
  let fg : Nat × Nat :=
    if i < 16 then ((b &&& c) ||| ((b ^^^ mask32) &&& d), i)
    else if i < 32 then ((d &&& b) ||| ((d ^^^ mask32) &&& c), (5 * i + 1) % 16)
    else if i < 48 then (b ^^^ c ^^^ d, (3 * i + 5) % 16)
    else (c ^^^ (b ||| (d ^^^ mask32)), (7 * i) % 16)
  let tmp := (a + fg.1 + md5K.getD i 0 + m.getD fg.2 0) % w32
  (d, (b + leftrot tmp (md5S.getD i 0)) % w32, b, c)

/-- 4 little-endian bytes of a 32-bit word. -/
def wordLE (w : Nat) : List Nat :=
  [w % 256, (w / 256) % 256, (w / 65536) % 256, (w / 16777216) % 256]

/-- Assemble little-endian 32-bit words from groups of 4 bytes. -/
def bytesToWords : List Nat → List Nat
  | b0 :: b1 :: b2 :: b3 :: rest =>
      (b0 + b1 * 256 + b2 * 65536 + b3 * 16777216) :: bytesToWords rest
  | _ => []

/-- MD5 padding: append 0x80, zero-pad to 56 mod 64, append the original
bit length as 8 little-endian bytes. -/
def padMessage (msg : List Nat) : List Nat :=
  let len := msg.length
  let zeros := (120 - ((len + 1) % 64)) % 64
  let bits := (len * 8) % (2 ^ 64)
  msg ++ [128] ++ List.replicate zeros 0 ++
    [bits % 256, (bits / 2 ^ 8) % 256, (bits / 2 ^ 16) % 256,
     (bits / 2 ^ 24) % 256, (bits / 2 ^ 32) % 256, (bits / 2 ^ 40) % 256,
     (bits / 2 ^ 48) % 256, (bits / 2 ^ 56) % 256]

/-- Structural 64-byte chunking (fuel = list length). -/
def chunksAux : Nat → List Nat → List (List Nat)
  | 0, _ => []
  | _, [] => []
  | fuel + 1, l => l.take 64 :: chunksAux fuel (l.drop 64)

def chunks64 (l : List Nat) : List (List Nat) := chunksAux l.length l

def md5Block (st : Nat × Nat × Nat × Nat) (block : List Nat) :
    Nat × Nat × Nat × Nat :=
  let m := bytesToWords block
  let (a, b, c, d) := (List.range 64).foldl (md5Round m) st
  let (a0, b0, c0, d0) := st
  ((a0 + a) % w32, (b0 + b) % w32, (c0 + c) % w32, (d0 + d) % w32)

/-- The 16-byte MD5 digest of a byte sequence. -/
def md5 (msg : List Nat) : List Nat :=
  let st := (chunks64 (padMessage msg)).foldl md5Block
    (0x67452301, 0xefcdab89, 0x98badcfe, 0x10325476)
  wordLE st.1 ++ wordLE st.2.1 ++ wordLE st.2.2.1 ++ wordLE st.2.2.2

def hexDigit (n : Nat) : Char :=
  if n < 10 then Char.ofNat (48 + n) else Char.ofNat (87 + n)

/-- A lowercase hexadecimal digit, the alphabet of Go `%x` output. -/
def isHexChar (c : Char) : Bool := c.isDigit || ('a' ≤ c && c ≤ 'f')

def hexByte (b : Nat) : List Char := [hexDigit (b / 16 % 16), hexDigit (b % 16)]

/-- UTF-8 bytes of a character (Go strings are byte sequences; `[]byte(s)`
of a Go string holding the file content is its UTF-8 encoding). -/
def utf8Bytes (c : Char) : List Nat :=
  let n := c.toNat
  if n < 128 then [n]
  else if n < 2048 then [192 ||| (n >>> 6), 128 ||| (n &&& 63)]
  else if n < 65536 then
    [224 ||| (n >>> 12), 128 ||| ((n >>> 6) &&& 63), 128 ||| (n &&& 63)]
  else
    [240 ||| (n >>> 18), 128 ||| ((n >>> 12) &&& 63),
     128 ||| ((n >>> 6) &&& 63), 128 ||| (n &&& 63)]

def strBytes (s : String) : List Nat := s.data.flatMap utf8Bytes

/-- `generateChecksum` (migration.go line 167–169):
`fmt.Sprintf("%x", md5.Sum([]byte(content)))` — lowercase hex, two digits
per byte. -/
def generateChecksum (content : String) : String :=
  ⟨((md5 (strBytes content)).map hexByte).flatten⟩

/-! ## Migration records and the migration set -/

structure Migration where
  Filename : String
  Filepath : String
  Up : String
  Down : String
  Checksum : String
  Timestamp : Time
deriving DecidableEq

/-- Record assembly performed by `LoadMigrations` (lines 63–89): identity
and timestamp from the filename, scripts from the two files, checksum
computed over the up script only. -/
def assembleMigration (ts name dir up down : String) : Migration :=
  { Filename := ts ++ "_" ++ name
    Filepath := dir
    Up := up
    Down := down
    Checksum := generateChecksum up
    Timestamp := loadedTimestamp ts }

/-- `MigrationSet.GetPending` (lines 98–112): keep, in stored order, every
migration whose filename is not in the applied list. -/
def getPending (ms : List Migration) (applied : List String) : List Migration :=
  ms.filter (fun m => !(applied.contains m.Filename))

/-- `MigrationSet.GetMigrationByFilename` (lines 114–121): first exact
match, `none` models the "migration not found" error. -/
def getMigrationByFilename (ms : List Migration) (name : String) :
    Option Migration :=
  ms.find? (fun m => m.Filename = name)

/-! ## Database state, events, errors

`DBState σ` is the committed database: abstract schema/data state `σ`
plus the ledger table rows `(filename, checksum)` in insertion order
(`GetAppliedMigrations` reads `ORDER BY id`, i.e. insertion order).
A statement is run by an abstract `exec : String → σ → Option σ`;
`none` is a failing statement.  Every run also produces the list of
observable database calls (`Ev`), in program order, so that structural
properties such as "ledger writes happen inside the migration's
transaction" can be stated. -/

structure DBState (σ : Type) where
  data : σ
  ledger : List (String × String)
deriving DecidableEq

inductive Ev where
  | ensureLedger : Ev
  | listApplied : Ev
  | beginTx : Ev
  | stmt : String → Ev
  | recordApplied : String → String → Ev
  | recordRemoved : String → Ev
  | commit : Ev
  | rollback : Ev
deriving DecidableEq

inductive Err where
  | statementError : String → Err
  | migrationFileMissing : String → Err
  | noDownScript : String → Err
deriving DecidableEq

/-- The statement loop shared by `applyMigration` (lines 537–547) and
`rollbackMigration` (lines 563–573): iterate over the pieces obtained by
splitting the script on `";"`; trim each piece; skip it when blank or
when it starts with the `--` line-comment marker; otherwise execute it.
Returns the executed statements (as trace events, the failing one
included) and either the new data state or the failing statement. -/
def execStmts (exec : String → σ → Option σ) :
    List String → σ → List Ev × Except String σ
  | [], s => ([], Except.ok s)
  | piece :: rest, s =>
    let t := goTrim piece
    if t == "" || hasDashDash t then execStmts exec rest s
    else
      match exec t s with
      | none => ([Ev.stmt t], Except.error t)
      | some s' =>
        let r := execStmts exec rest s'
        (Ev.stmt t :: r.1, r.2)

/-- `Migrator.applyMigration` (lines 530–554): begin a transaction, run
the up script's statements, then `recordMigrationInTx` (ledger insert of
`(Filename, Checksum)`) inside the same transaction, then commit.  Any
statement failure aborts: the deferred `tx.Rollback()` discards every
tentative effect, so the committed state is returned unchanged. -/
def applyMigration (exec : String → σ → Option σ) (m : Migration)
    (st : DBState σ) : DBState σ × List Ev × Option Err :=
  let r := execStmts exec (goSplitSemi m.Up) st.data
  match r.2 with
  | Except.error t =>
    (st, Ev.beginTx :: r.1 ++ [Ev.rollback], some (Err.statementError t))
  | Except.ok d =>
    (⟨d, st.ledger ++ [(m.Filename, m.Checksum)]⟩,
     Ev.beginTx :: r.1 ++ [Ev.recordApplied m.Filename m.Checksum, Ev.commit],
     none)

/-- `Migrator.rollbackMigration` (lines 556–580): begin a transaction,
run the down script's statements, then `removeMigrationInTx` (ledger
`DELETE ... WHERE filename = ?`) inside the same transaction, commit. -/
def rollbackMigration (exec : String → σ → Option σ) (m : Migration)
    (st : DBState σ) : DBState σ × List Ev × Option Err :=
  let r := execStmts exec (goSplitSemi m.Down) st.data
  match r.2 with
  | Except.error t =>
    (st, Ev.beginTx :: r.1 ++ [Ev.rollback], some (Err.statementError t))
  | Except.ok d =>
    (⟨d, st.ledger.filter (fun e => e.1 ≠ m.Filename)⟩,
     Ev.beginTx :: r.1 ++ [Ev.recordRemoved m.Filename, Ev.commit],
     none)

/-- The loop of `Up` (lines 431–436): apply each pending migration in
order, aborting the whole run on the first failure. -/
def upFrom (exec : String → σ → Option σ) :
    List Migration → DBState σ → DBState σ × List Ev × Option Err
  | [], st => (st, [], none)
  | m :: rest, st =>
    let r := applyMigration exec m st
    match r.2.2 with
    | some e => (r.1, r.2.1, some e)
    | none =>
      let r' := upFrom exec rest r.1
      (r'.1, r.2.1 ++ r'.2.1, r'.2.2)

/-- `Migrator.Up` (lines 408–440): ensure the ledger table exists
(standalone `db.Exec`), load the set from disk (`ms`), read the applied
list (standalone `db.Query`), compute the pending set, apply it. -/
def runUp (exec : String → σ → Option σ) (ms : List Migration)
    (st : DBState σ) : DBState σ × List Ev × Option Err :=
  let applied := st.ledger.map Prod.fst
  let pending := getPending ms applied
  let r := upFrom exec pending st
  (r.1, Ev.ensureLedger :: Ev.listApplied :: r.2.1, r.2.2)

/-- One iteration of the `Down` loop (lines 466–481): look the filename
up in the freshly loaded set (error "failed to find migration" when
absent); error "has no down migration" when the down script is empty;
otherwise run `rollbackMigration`.  Both error paths happen before any
transaction is begun. -/
def downStep (exec : String → σ → Option σ) (ms : List Migration)
    (name : String) (st : DBState σ) : DBState σ × List Ev × Option Err :=
  match getMigrationByFilename ms name with
  | none => (st, [], some (Err.migrationFileMissing name))
  | some m =>
    if m.Down = "" then (st, [], some (Err.noDownScript name))
    else rollbackMigration exec m st

/-- The `Down` loop over the chosen filenames (already reversed, i.e. in
processing order).  Also returns the filenames successfully rolled back,
in processing order. -/
def downLoop (exec : String → σ → Option σ) (ms : List Migration) :
    List String → DBState σ → DBState σ × List String × List Ev × Option Err
  | [], st => (st, [], [], none)
  | name :: rest, st =>
    let r := downStep exec ms name st
    match r.2.2 with
    | some e => (r.1, [], r.2.1, some e)
    | none =>
      let r' := downLoop exec ms rest r.1
      (r'.1, name :: r'.2.1, r.2.1 ++ r'.2.2.1, r'.2.2.2)

/-- The clamping of `steps` (line 458–460):
`if steps <= 0 || steps > len(appliedMigrations) { steps = len(...) }`. -/
def clampSteps (steps : Int) (n : Nat) : Nat :=
  if steps ≤ 0 ∨ (n : Int) < steps then n else steps.toNat

/-- The selection of line 462:
`toRollback := appliedMigrations[len(appliedMigrations)-steps:]`. -/
def rollbackTargets (applied : List String) (steps : Int) : List String :=
  applied.drop (applied.length - clampSteps steps applied.length)

/-- `Migrator.Down` (lines 442–485): read the applied list (standalone
query, ledger insertion order); return early when empty; clamp `steps`,
select the suffix, process it in reverse via the loop. -/
def runDown (exec : String → σ → Option σ) (ms : List Migration)
    (steps : Int) (st : DBState σ) :
    DBState σ × List String × List Ev × Option Err :=
  let applied := st.ledger.map Prod.fst
  if applied.isEmpty then (st, [], [Ev.listApplied], none)
  else
    let r := downLoop exec ms (rollbackTargets applied steps).reverse st
    (r.1, r.2.1, Ev.listApplied :: r.2.2.1, r.2.2.2)

/-- `Migrator.Status` (lines 487–524): per-migration applied flag in set
order, plus the three aggregate counts. -/
def runStatus (ms : List Migration) (st : DBState σ) :
    List (String × Bool) × Nat × Nat × Nat :=
  let applied := st.ledger.map Prod.fst
  (ms.map (fun m => (m.Filename, applied.contains m.Filename)),
   ms.length, applied.length, (getPending ms applied).length)

/-! ## Transaction-position bookkeeping over traces -/

/-- Whether a transaction is open after seeing one more event. -/
def openAfter (b : Bool) (e : Ev) : Bool :=
  match e with
  | Ev.beginTx => true
  | Ev.commit => false
  | Ev.rollback => false
  | _ => b

/-- Whether a transaction is open after a whole event sequence, starting
from openness `b`. -/
def txFold (b : Bool) (tr : List Ev) : Bool := tr.foldl openAfter b

/-- Whether the event at position `i` of `tr` executes inside an open
transaction. -/
def inTxAt (tr : List Ev) (i : Nat) : Bool := txFold false (tr.take i)

/-- Ledger-mutating operations: `recordMigrationInTx` / `removeMigrationInTx`. -/
def isMutEv : Ev → Bool
  | Ev.recordApplied _ _ => true
  | Ev.recordRemoved _ => true
  | _ => false

/-- Ledger read/setup operations: `CreateMigrationsTable` / `GetAppliedMigrations`. -/
def isReadEv : Ev → Bool
  | Ev.ensureLedger => true
  | Ev.listApplied => true
  | _ => false

/-- Any of the four ledger operations of spec §4.3. -/
def isLedgerEv (e : Ev) : Bool := isMutEv e || isReadEv e

/-- Local well-formedness of one event given the current transaction
openness: ledger mutations only inside a transaction, ledger
reads/setup only outside one. -/
def okEv (b : Bool) (e : Ev) : Bool :=
  if isMutEv e then b else if isReadEv e then !b else true

/-- Scan of a trace checking `okEv` at every position. -/
def wfTr : Bool → List Ev → Bool
  | _, [] => true
  | b, e :: rest => okEv b e && wfTr (openAfter b e) rest

/-! ## Statement-splitting, spec-side formulation -/

/-- The statements that survive the per-piece trim/skip logic of the
execution loop, in order. -/
def cleanPieces (pieces : List String) : List String :=
  (pieces.map goTrim).filter (fun t => !(t == "" || hasDashDash t))

/-- Spec-side description of the statement list of a script: split on the
literal `";"`, trim, drop blanks and `--` comments. -/
def cleanStatements (script : String) : List String :=
  cleanPieces (goSplitSemi script)

/-- Plain sequential execution of a statement list, stopping at the
first failing statement. -/
def seqExec (exec : String → σ → Option σ) :
    List String → σ → Except String σ
  | [], s => Except.ok s
  | t :: rest, s =>
    match exec t s with
    | none => Except.error t
    | some s' => seqExec exec rest s'

/-! ## Concrete fixtures used by witness theorems -/

/-- A data state logging executed statements; the statement "BAD" fails. -/
def logExec : String → List String → Option (List String) :=
  fun s d => if s = "BAD" then none else some (d ++ [s])

/-- An execution in which every statement succeeds (data state trivial). -/
def okExec : String → Unit → Option Unit := fun _ _ => some ()

def migA : Migration :=
  ⟨"20230101120000_a", "a", "CREATE A", "DROP A", "ca", ⟨2023, 1, 1, 12, 0, 0⟩⟩

def migB : Migration :=
  ⟨"20230102120000_b", "b", "CREATE B;BAD", "DROP B", "cb",
   ⟨2023, 1, 2, 12, 0, 0⟩⟩

def st0 : DBState (List String) := ⟨[], []⟩

def stTwo : DBState Unit :=
  ⟨(), [("20230101120000_a", "ca"), ("20230102120000_b", "cb")]⟩

def stTwo' : DBState Unit :=
  ⟨(), [("20230101120000_a", "zz"), ("20230102120000_b", "ww")]⟩

def stOne : DBState Unit := ⟨(), [("x", "cx")]⟩

/-- State after successfully applying `migA` from the empty state. -/
def st1c : DBState (List String) :=
  ⟨["CREATE A"], [("20230101120000_a", "ca")]⟩

/-- Trace of successfully applying `migA` from the empty state. -/
def tr1c : List Ev :=
  [Ev.beginTx, Ev.stmt "CREATE A",
   Ev.recordApplied "20230101120000_a" "ca", Ev.commit]

/-! ## Helper lemmas -/

theorem applyMigration_of_error (exec : String → σ → Option σ)
    (m : Migration) (st : DBState σ) (t : String)
    (h : (execStmts exec (goSplitSemi m.Up) st.data).2 = Except.error t) :
    applyMigration exec m st =
      (st,
       Ev.beginTx :: (execStmts exec (goSplitSemi m.Up) st.data).1
         ++ [Ev.rollback],
       some (Err.statementError t)) := by
  simp [applyMigration, h]

theorem applyMigration_of_ok (exec : String → σ → Option σ)
    (m : Migration) (st : DBState σ) (d : σ)
    (h : (execStmts exec (goSplitSemi m.Up) st.data).2 = Except.ok d) :
    applyMigration exec m st =
      (⟨d, st.ledger ++ [(m.Filename, m.Checksum)]⟩,
       Ev.beginTx :: (execStmts exec (goSplitSemi m.Up) st.data).1
         ++ [Ev.recordApplied m.Filename m.Checksum, Ev.commit],
       none) := by
  simp [applyMigration, h]

theorem rollbackMigration_of_error (exec : String → σ → Option σ)
    (m : Migration) (st : DBState σ) (t : String)
    (h : (execStmts exec (goSplitSemi m.Down) st.data).2 = Except.error t) :
    rollbackMigration exec m st =
      (st,
       Ev.beginTx :: (execStmts exec (goSplitSemi m.Down) st.data).1
         ++ [Ev.rollback],
       some (Err.statementError t)) := by
  simp [rollbackMigration, h]

theorem rollbackMigration_of_ok (exec : String → σ → Option σ)
    (m : Migration) (st : DBState σ) (d : σ)
    (h : (execStmts exec (goSplitSemi m.Down) st.data).2 = Except.ok d) :
    rollbackMigration exec m st =
      (⟨d, st.ledger.filter (fun e => e.1 ≠ m.Filename)⟩,
       Ev.beginTx :: (execStmts exec (goSplitSemi m.Down) st.data).1
         ++ [Ev.recordRemoved m.Filename, Ev.commit],
       none) := by
  simp [rollbackMigration, h]

/-- A successful prefix of the `Up` loop composes with the rest. -/
theorem upFrom_ok_append (exec : String → σ → Option σ)
    (xs ys : List Migration) :
    ∀ (st st1 : DBState σ) (tr1 : List Ev),
      upFrom exec xs st = (st1, tr1, none) →
      upFrom exec (xs ++ ys) st =
        ((upFrom exec ys st1).1, tr1 ++ (upFrom exec ys st1).2.1,
         (upFrom exec ys st1).2.2) := by
  induction xs with
  | nil =>
    intro st st1 tr1 h
    simp [upFrom] at h
    simp [h.1, h.2]
  | cons m rest ih =>
    intro st st1 tr1 h
    simp only [upFrom] at h ⊢
    cases he : (applyMigration exec m st).2.2 with
    | some e => simp [he] at h
    | none =>
      simp only [he] at h ⊢
      cases hrest : upFrom exec rest (applyMigration exec m st).1 with
      | mk st2 r2 =>
        obtain ⟨r2tr, r2err⟩ := r2
        simp [hrest] at h
        obtain ⟨h1, h2, h3⟩ := h
        subst h1 h3
        simp only [List.append_eq]
        rw [ih _ _ _ hrest]
        simp [← h2, List.append_assoc]

/-- A successful `Up` loop appends exactly one ledger row per migration,
in order. -/
theorem upFrom_ok_ledger (exec : String → σ → Option σ)
    (xs : List Migration) :
    ∀ (st st1 : DBState σ) (tr1 : List Ev),
      upFrom exec xs st = (st1, tr1, none) →
      st1.ledger = st.ledger
        ++ xs.map (fun m => (m.Filename, m.Checksum)) := by
  induction xs with
  | nil =>
    intro st st1 tr1 h
    simp [upFrom] at h
    simp [h.1]
  | cons m rest ih =>
    intro st st1 tr1 h
    simp only [upFrom] at h
    cases hr : (execStmts exec (goSplitSemi m.Up) st.data).2 with
    | error t => rw [applyMigration_of_error exec m st t hr] at h; simp at h
    | ok d =>
      rw [applyMigration_of_ok exec m st d hr] at h
      simp only [] at h
      cases hrest : upFrom exec rest ⟨d, st.ledger ++ [(m.Filename, m.Checksum)]⟩ with
      | mk st2 r2 =>
        obtain ⟨r2tr, r2err⟩ := r2
        simp [hrest] at h
        obtain ⟨h1, h2, h3⟩ := h
        subst h1 h3
        have := ih _ _ _ hrest
        simp at this
        simp [this]

theorem execStmts_eq_seqExec (exec : String → σ → Option σ) :
    ∀ (l : List String) (s : σ),
      (execStmts exec l s).2 = seqExec exec (cleanPieces l) s := by
  intro l
  induction l with
  | nil => intro s; rfl
  | cons p rest ih =>
    intro s
    cases h : (goTrim p == "" || hasDashDash (goTrim p)) with
    | true =>
      simp at h
      rcases h with h1 | h1 <;>
        simp [execStmts, cleanPieces, h1, ih s, List.filter_cons]
    | false =>
      simp only [execStmts, cleanPieces, List.map_cons, List.filter_cons,
        h, Bool.not_false, if_true, if_false]
      cases hx : exec (goTrim p) s with
      | none => simp [seqExec, hx]
      | some s' =>
        simpa [seqExec, hx, cleanPieces] using ih s'

/-- A successful `Down` loop rolls back every listed name, in list
order. -/
theorem downLoop_ok_names (exec : String → σ → Option σ)
    (ms : List Migration) (l : List String) :
    ∀ (st st' : DBState σ) (done : List String) (tr : List Ev),
      downLoop exec ms l st = (st', done, tr, none) → done = l := by
  induction l with
  | nil =>
    intro st st' done tr h
    simp [downLoop] at h
    simp [h.2.1]
  | cons n rest ih =>
    intro st st' done tr h
    simp only [downLoop] at h
    cases he : (downStep exec ms n st).2.2 with
    | some e => simp [he] at h
    | none =>
      simp only [he] at h
      cases hrest : downLoop exec ms rest (downStep exec ms n st).1 with
      | mk st2 r2 =>
        obtain ⟨done2, r2tr, r2err⟩ := r2
        simp [hrest] at h
        obtain ⟨h1, h2, h3, h4⟩ := h
        subst h4
        rw [← h2, ih _ _ _ _ hrest]

/-- A successful prefix of the `Down` loop composes with the rest. -/
theorem downLoop_ok_append (exec : String → σ → Option σ)
    (ms : List Migration) (xs ys : List String) :
    ∀ (st st1 : DBState σ) (done1 : List String) (tr1 : List Ev),
      downLoop exec ms xs st = (st1, done1, tr1, none) →
      downLoop exec ms (xs ++ ys) st =
        ((downLoop exec ms ys st1).1,
         done1 ++ (downLoop exec ms ys st1).2.1,
         tr1 ++ (downLoop exec ms ys st1).2.2.1,
         (downLoop exec ms ys st1).2.2.2) := by
  induction xs with
  | nil =>
    intro st st1 done1 tr1 h
    simp [downLoop] at h
    simp [h.1, h.2.1, h.2.2]
  | cons n rest ih =>
    intro st st1 done1 tr1 h
    simp only [downLoop] at h ⊢
    cases he : (downStep exec ms n st).2.2 with
    | some e => simp [he] at h
    | none =>
      simp only [he] at h ⊢
      cases hrest : downLoop exec ms rest (downStep exec ms n st).1 with
      | mk st2 r2 =>
        obtain ⟨done2, r2tr, r2err⟩ := r2
        simp [hrest] at h
        obtain ⟨h1, h2, h3, h4⟩ := h
        subst h1 h4
        simp only [List.append_eq]
        rw [ih _ _ _ _ hrest]
        simp [← h2, ← h3, List.append_assoc]

theorem downStep_of_missing (exec : String → σ → Option σ)
    (ms : List Migration) (name : String) (st : DBState σ)
    (h : getMigrationByFilename ms name = none) :
    downStep exec ms name st = (st, [], some (Err.migrationFileMissing name)) := by
  simp [downStep, h]

theorem downStep_of_noDown (exec : String → σ → Option σ)
    (ms : List Migration) (name : String) (m : Migration) (st : DBState σ)
    (h : getMigrationByFilename ms name = some m) (hd : m.Down = "") :
    downStep exec ms name st = (st, [], some (Err.noDownScript name)) := by
  simp [downStep, h, hd]

theorem txFold_append (a c : List Ev) (b : Bool) :
    txFold b (a ++ c) = txFold (txFold b a) c :=
  List.foldl_append openAfter b a c

theorem wfTr_append (a : List Ev) :
    ∀ (c : List Ev) (b : Bool),
      wfTr b (a ++ c) = (wfTr b a && wfTr (txFold b a) c) := by
  induction a with
  | nil => intro c b; simp [wfTr, txFold]
  | cons e rest ih =>
    intro c b
    simp [wfTr, ih, txFold, Bool.and_assoc]

theorem read_mut_disjoint (e : Ev) : isReadEv e = true → isMutEv e = false := by
  cases e <;> simp [isMutEv, isReadEv]

/-- Positional reading of `wfTr`: a successfully scanned trace has every
ledger mutation inside an open transaction and every ledger read outside
one. -/
theorem wfTr_positions (tr : List Ev) :
    ∀ (b : Bool), wfTr b tr = true →
      ∀ (i : Nat) (e : Ev), tr.get? i = some e →
        (isMutEv e = true → txFold b (tr.take i) = true) ∧
        (isReadEv e = true → txFold b (tr.take i) = false) := by
  induction tr with
  | nil => intro b _ i e h; simp at h
  | cons ev rest ih =>
    intro b hwf i e hget
    have hsplit : okEv b ev = true ∧ wfTr (openAfter b ev) rest = true := by
      simpa [wfTr, Bool.and_eq_true] using hwf
    cases i with
    | zero =>
      simp at hget
      subst hget
      constructor
      · intro hm
        have h1 := hsplit.1
        simp only [okEv] at h1
        rw [if_pos hm] at h1
        simpa [txFold] using h1
      · intro hr
        have h1 := hsplit.1
        simp only [okEv] at h1
        rw [if_neg (by simp [read_mut_disjoint _ hr]), if_pos hr] at h1
        simp only [txFold, List.take_zero, List.foldl_nil]
        cases b with
        | false => rfl
        | true => simp at h1
    | succ j =>
      simp at hget
      have := ih (openAfter b ev) hsplit.2 j e (by simpa using hget)
      simpa [txFold, List.take_succ_cons] using this

theorem execStmts_stmts_only (exec : String → σ → Option σ) :
    ∀ (l : List String) (s : σ) (e : Ev),
      e ∈ (execStmts exec l s).1 → ∃ t, e = Ev.stmt t := by
  intro l
  induction l with
  | nil => intro s e h; simp [execStmts] at h
  | cons p rest ih =>
    intro s e h
    simp only [execStmts] at h
    cases hc : (goTrim p == "" || hasDashDash (goTrim p)) with
    | true =>
      rw [if_pos hc] at h
      exact ih s e h
    | false =>
      rw [if_neg (by simp [hc])] at h
      cases hx : exec (goTrim p) s with
      | none => rw [hx] at h; simp at h; exact ⟨_, h⟩
      | some s' =>
        rw [hx] at h
        simp at h
        rcases h with h | h
        · exact ⟨_, h⟩
        · exact ih s' e h

theorem stmts_only_wf (tr : List Ev) :
    (∀ e ∈ tr, ∃ t, e = Ev.stmt t) →
    ∀ b, wfTr b tr = true ∧ txFold b tr = b := by
  induction tr with
  | nil => intro _ b; simp [wfTr, txFold]
  | cons e rest ih =>
    intro h b
    obtain ⟨t, rfl⟩ := h e (by simp)
    have ihb := ih (fun e' he' => h e' (by simp [he'])) b
    refine ⟨?_, ?_⟩
    · simp [wfTr, okEv, isMutEv, isReadEv, openAfter, ihb.1]
    · simpa [txFold, openAfter] using ihb.2

theorem applyMigration_wf (exec : String → σ → Option σ) (m : Migration)
    (st : DBState σ) :
    wfTr false (applyMigration exec m st).2.1 = true ∧
    txFold false (applyMigration exec m st).2.1 = false := by
  obtain ⟨hw, hf⟩ := stmts_only_wf (execStmts exec (goSplitSemi m.Up) st.data).1
    (fun e he => execStmts_stmts_only exec (goSplitSemi m.Up) st.data e he) true
  cases hr : (execStmts exec (goSplitSemi m.Up) st.data).2 with
  | error t =>
    rw [applyMigration_of_error exec m st t hr]
    constructor
    · simp [wfTr, okEv, isMutEv, isReadEv, openAfter, wfTr_append, hw, hf,
        txFold]
    · simp [txFold, openAfter, List.foldl_append, hf]
  | ok d =>
    rw [applyMigration_of_ok exec m st d hr]
    constructor
    · simp [wfTr, okEv, isMutEv, isReadEv, openAfter, wfTr_append, hw,
        txFold]
      exact hf
    · simp [txFold, openAfter, List.foldl_append, hf]

theorem rollbackMigration_wf (exec : String → σ → Option σ) (m : Migration)
    (st : DBState σ) :
    wfTr false (rollbackMigration exec m st).2.1 = true ∧
    txFold false (rollbackMigration exec m st).2.1 = false := by
  obtain ⟨hw, hf⟩ := stmts_only_wf (execStmts exec (goSplitSemi m.Down) st.data).1
    (fun e he => execStmts_stmts_only exec (goSplitSemi m.Down) st.data e he) true
  cases hr : (execStmts exec (goSplitSemi m.Down) st.data).2 with
  | error t =>
    rw [rollbackMigration_of_error exec m st t hr]
    constructor
    · simp [wfTr, okEv, isMutEv, isReadEv, openAfter, wfTr_append, hw, hf,
        txFold]
    · simp [txFold, openAfter, List.foldl_append, hf]
  | ok d =>
    rw [rollbackMigration_of_ok exec m st d hr]
    constructor
    · simp [wfTr, okEv, isMutEv, isReadEv, openAfter, wfTr_append, hw,
        txFold]
      exact hf
    · simp [txFold, openAfter, List.foldl_append, hf]

theorem downStep_wf (exec : String → σ → Option σ) (ms : List Migration)
    (name : String) (st : DBState σ) :
    wfTr false (downStep exec ms name st).2.1 = true ∧
    txFold false (downStep exec ms name st).2.1 = false := by
  unfold downStep
  cases hl : getMigrationByFilename ms name with
  | none => simp [wfTr, txFold]
  | some m =>
    by_cases hd : m.Down = ""
    · simp [hd, wfTr, txFold]
    · simpa [hd] using rollbackMigration_wf exec m st

theorem upFrom_wf (exec : String → σ → Option σ) (l : List Migration) :
    ∀ st : DBState σ,
      wfTr false (upFrom exec l st).2.1 = true ∧
      txFold false (upFrom exec l st).2.1 = false := by
  induction l with
  | nil => intro st; simp [upFrom, wfTr, txFold]
  | cons m rest ih =>
    intro st
    simp only [upFrom]
    cases ha : (applyMigration exec m st).2.2 with
    | some e => simpa [ha] using applyMigration_wf exec m st
    | none =>
      have hm := applyMigration_wf exec m st
      have hr := ih (applyMigration exec m st).1
      simp only [ha]
      constructor
      · simp [wfTr_append, hm.1, hm.2, hr.1]
      · simp [txFold_append, hm.2, hr.2]

theorem downLoop_wf (exec : String → σ → Option σ) (ms : List Migration)
    (l : List String) :
    ∀ st : DBState σ,
      wfTr false (downLoop exec ms l st).2.2.1 = true ∧
      txFold false (downLoop exec ms l st).2.2.1 = false := by
  induction l with
  | nil => intro st; simp [downLoop, wfTr, txFold]
  | cons n rest ih =>
    intro st
    simp only [downLoop]
    cases ha : (downStep exec ms n st).2.2 with
    | some e => simpa [ha] using downStep_wf exec ms n st
    | none =>
      have hm := downStep_wf exec ms n st
      have hr := ih (downStep exec ms n st).1
      simp only [ha]
      constructor
      · simp [wfTr_append, hm.1, hm.2, hr.1]
      · simp [txFold_append, hm.2, hr.2]

theorem runUp_wf (exec : String → σ → Option σ) (ms : List Migration)
    (st : DBState σ) : wfTr false (runUp exec ms st).2.1 = true := by
  have h := upFrom_wf exec (getPending ms (st.ledger.map Prod.fst)) st
  simp [runUp, wfTr, okEv, isMutEv, isReadEv, openAfter, h.1]

theorem runDown_wf (exec : String → σ → Option σ) (ms : List Migration)
    (steps : Int) (st : DBState σ) :
    wfTr false (runDown exec ms steps st).2.2.1 = true := by
  cases hemp : (st.ledger.map Prod.fst).isEmpty with
  | true => simp [runDown, hemp, wfTr, okEv, isMutEv, isReadEv]
  | false =>
    have h := downLoop_wf exec ms
      (rollbackTargets (st.ledger.map Prod.fst) steps).reverse st
    simp [runDown, hemp, wfTr, okEv, isMutEv, isReadEv, openAfter, h.1]

theorem map_fst_filter_ne (l : List (String × String)) (n : String) :
    (l.filter (fun e => e.1 ≠ n)).map Prod.fst =
      (l.map Prod.fst).filter (fun x => x ≠ n) := by
  induction l with
  | nil => rfl
  | cons e rest ih =>
    simp only [ne_eq, decide_not] at ih
    by_cases h : e.1 = n <;> simp [h, ih]

theorem applyMigration_resp (exec : String → σ → Option σ) (m : Migration)
    (st1 st2 : DBState σ) (hd : st1.data = st2.data)
    (hn : st1.ledger.map Prod.fst = st2.ledger.map Prod.fst) :
    (applyMigration exec m st1).1.data = (applyMigration exec m st2).1.data ∧
    (applyMigration exec m st1).1.ledger.map Prod.fst =
      (applyMigration exec m st2).1.ledger.map Prod.fst ∧
    (applyMigration exec m st1).2 = (applyMigration exec m st2).2 := by
  cases hr : (execStmts exec (goSplitSemi m.Up) st1.data).2 with
  | error t =>
    have hr2 : (execStmts exec (goSplitSemi m.Up) st2.data).2 =
        Except.error t := by rw [← hd]; exact hr
    rw [applyMigration_of_error exec m st1 t hr,
        applyMigration_of_error exec m st2 t hr2]
    simp [hd, hn]
  | ok d =>
    have hr2 : (execStmts exec (goSplitSemi m.Up) st2.data).2 =
        Except.ok d := by rw [← hd]; exact hr
    rw [applyMigration_of_ok exec m st1 d hr,
        applyMigration_of_ok exec m st2 d hr2]
    simp [hd, hn]

theorem rollbackMigration_resp (exec : String → σ → Option σ) (m : Migration)
    (st1 st2 : DBState σ) (hd : st1.data = st2.data)
    (hn : st1.ledger.map Prod.fst = st2.ledger.map Prod.fst) :
    (rollbackMigration exec m st1).1.data =
      (rollbackMigration exec m st2).1.data ∧
    (rollbackMigration exec m st1).1.ledger.map Prod.fst =
      (rollbackMigration exec m st2).1.ledger.map Prod.fst ∧
    (rollbackMigration exec m st1).2 = (rollbackMigration exec m st2).2 := by
  cases hr : (execStmts exec (goSplitSemi m.Down) st1.data).2 with
  | error t =>
    have hr2 : (execStmts exec (goSplitSemi m.Down) st2.data).2 =
        Except.error t := by rw [← hd]; exact hr
    rw [rollbackMigration_of_error exec m st1 t hr,
        rollbackMigration_of_error exec m st2 t hr2]
    simp [hd, hn]
  | ok d =>
    have hr2 : (execStmts exec (goSplitSemi m.Down) st2.data).2 =
        Except.ok d := by rw [← hd]; exact hr
    rw [rollbackMigration_of_ok exec m st1 d hr,
        rollbackMigration_of_ok exec m st2 d hr2]
    refine ⟨rfl, ?_, by simp [hd]⟩
    simp only [map_fst_filter_ne, hn]

theorem downStep_resp (exec : String → σ → Option σ) (ms : List Migration)
    (name : String) (st1 st2 : DBState σ) (hd : st1.data = st2.data)
    (hn : st1.ledger.map Prod.fst = st2.ledger.map Prod.fst) :
    (downStep exec ms name st1).1.data = (downStep exec ms name st2).1.data ∧
    (downStep exec ms name st1).1.ledger.map Prod.fst =
      (downStep exec ms name st2).1.ledger.map Prod.fst ∧
    (downStep exec ms name st1).2 = (downStep exec ms name st2).2 := by
  unfold downStep
  cases hl : getMigrationByFilename ms name with
  | none => exact ⟨hd, hn, rfl⟩
  | some m =>
    by_cases hdown : m.Down = ""
    · simp [hdown]
      exact ⟨hd, hn⟩
    · simp only [hdown, if_neg, ite_false]
      exact rollbackMigration_resp exec m st1 st2 hd hn

theorem upFrom_resp (exec : String → σ → Option σ) (l : List Migration) :
    ∀ (st1 st2 : DBState σ), st1.data = st2.data →
      st1.ledger.map Prod.fst = st2.ledger.map Prod.fst →
      (upFrom exec l st1).1.data = (upFrom exec l st2).1.data ∧
      (upFrom exec l st1).1.ledger.map Prod.fst =
        (upFrom exec l st2).1.ledger.map Prod.fst ∧
      (upFrom exec l st1).2 = (upFrom exec l st2).2 := by
  induction l with
  | nil => intro st1 st2 hd hn; exact ⟨hd, hn, rfl⟩
  | cons m rest ih =>
    intro st1 st2 hd hn
    obtain ⟨ad, an, ae⟩ := applyMigration_resp exec m st1 st2 hd hn
    have htr : (applyMigration exec m st1).2.1 =
        (applyMigration exec m st2).2.1 := congrArg Prod.fst ae
    have herr : (applyMigration exec m st1).2.2 =
        (applyMigration exec m st2).2.2 := congrArg Prod.snd ae
    simp only [upFrom]
    cases ha : (applyMigration exec m st1).2.2 with
    | some e =>
      rw [ha] at herr
      simp only [ha, ← herr]
      exact ⟨ad, an, by rw [htr]⟩
    | none =>
      rw [ha] at herr
      simp only [ha, ← herr]
      obtain ⟨ud, un, ue⟩ := ih (applyMigration exec m st1).1
        (applyMigration exec m st2).1 ad an
      have utr := congrArg Prod.fst ue
      have uerr := congrArg Prod.snd ue
      exact ⟨ud, un, by rw [htr, utr, uerr]⟩

theorem downLoop_resp (exec : String → σ → Option σ) (ms : List Migration)
    (l : List String) :
    ∀ (st1 st2 : DBState σ), st1.data = st2.data →
      st1.ledger.map Prod.fst = st2.ledger.map Prod.fst →
      (downLoop exec ms l st1).1.data = (downLoop exec ms l st2).1.data ∧
      (downLoop exec ms l st1).1.ledger.map Prod.fst =
        (downLoop exec ms l st2).1.ledger.map Prod.fst ∧
      (downLoop exec ms l st1).2 = (downLoop exec ms l st2).2 := by
  induction l with
  | nil => intro st1 st2 hd hn; exact ⟨hd, hn, rfl⟩
  | cons n rest ih =>
    intro st1 st2 hd hn
    obtain ⟨ad, an, ae⟩ := downStep_resp exec ms n st1 st2 hd hn
    have htr : (downStep exec ms n st1).2.1 =
        (downStep exec ms n st2).2.1 := congrArg Prod.fst ae
    have herr : (downStep exec ms n st1).2.2 =
        (downStep exec ms n st2).2.2 := congrArg Prod.snd ae
    simp only [downLoop]
    cases ha : (downStep exec ms n st1).2.2 with
    | some e =>
      rw [ha] at herr
      simp only [ha, ← herr]
      exact ⟨ad, an, by rw [htr]⟩
    | none =>
      rw [ha] at herr
      simp only [ha, ← herr]
      obtain ⟨ud, un, ue⟩ := ih (downStep exec ms n st1).1
        (downStep exec ms n st2).1 ad an
      have udone := congrArg Prod.fst ue
      have utr := congrArg (fun p => p.2.1) ue
      have uerr := congrArg (fun p => p.2.2) ue
      simp only [] at utr uerr
      exact ⟨ud, un, by rw [htr, udone, utr, uerr]⟩

/-! ## Claim theorems -/

/-- C1: `MigrationSet.GetPending` is a pure set-difference in the set's
stored order: it returns exactly the migrations of the set whose
identity is not in the applied list, as a sublist of the stored sequence
(so in the stored ascending-timestamp order).  Membership depends only
on identity, never on timestamps, so a migration older than the newest
applied one is still pending when its identity was never recorded. -/
theorem getPending_set_difference (ms : List Migration)
    (applied : List String) :
    List.Sublist (getPending ms applied) ms ∧
    (∀ m : Migration,
      m ∈ getPending ms applied ↔ m ∈ ms ∧ ¬ m.Filename ∈ applied) := by
  refine ⟨List.filter_sublist _, fun m => ?_⟩
  simp [getPending]

/-- C4: statement preparation is a naive split on the literal `";"`:
each piece is whitespace-trimmed, blank pieces and pieces starting with
the `--` line-comment marker are dropped, and the surviving statements
are executed in sequence — this is exactly what the transaction body of
`applyMigration` (on the up script) and `rollbackMigration` (on the
down script) executes.  The final conjunct shows the splitting is blind
to quoting: a `;` inside a string literal splits the statement. -/
theorem statement_splitting_naive (σ : Type) :
    (∀ (exec : String → σ → Option σ) (script : String) (s : σ),
        (execStmts exec (goSplitSemi script) s).2 =
          seqExec exec (cleanStatements script) s) ∧
    (∀ (exec : String → σ → Option σ) (m : Migration) (st : DBState σ),
        (applyMigration exec m st).1.data =
          match seqExec exec (cleanStatements m.Up) st.data with
          | Except.ok d => d
          | Except.error _ => st.data) ∧
    (∀ (exec : String → σ → Option σ) (m : Migration) (st : DBState σ),
        (rollbackMigration exec m st).1.data =
          match seqExec exec (cleanStatements m.Down) st.data with
          | Except.ok d => d
          | Except.error _ => st.data) ∧
    cleanStatements "SELECT 1;  -- cmt;  ;INSERT INTO t VALUES ('a;b')" =
      ["SELECT 1", "INSERT INTO t VALUES ('a", "b')"] := by
  refine ⟨fun exec script s => execStmts_eq_seqExec exec _ s, ?_, ?_, by decide⟩
  · intro exec m st
    rw [cleanStatements, ← execStmts_eq_seqExec exec (goSplitSemi m.Up) st.data]
    cases hr : (execStmts exec (goSplitSemi m.Up) st.data).2 with
    | error t => rw [applyMigration_of_error exec m st t hr]
    | ok d => rw [applyMigration_of_ok exec m st d hr]
  · intro exec m st
    rw [cleanStatements, ← execStmts_eq_seqExec exec (goSplitSemi m.Down) st.data]
    cases hr : (execStmts exec (goSplitSemi m.Down) st.data).2 with
    | error t => rw [rollbackMigration_of_error exec m st t hr]
    | ok d => rw [rollbackMigration_of_ok exec m st d hr]

/-- C3: `Down(steps)` clamps `steps` to the number of applied entries
whenever it is zero, negative, or larger than that number, then rolls
back exactly the last `steps` entries of the ledger-insertion-order
list, processing them in reverse (most recently applied first): on a
successful run the rolled-back identities, in processing order, are the
reverse of the selected suffix of the ledger. -/
theorem down_clamps_and_rolls_back_suffix (exec : String → σ → Option σ)
    (ms : List Migration) (steps : Int) (st st' : DBState σ)
    (done : List String) (tr : List Ev)
    (h : runDown exec ms steps st = (st', done, tr, none)) :
    done = (rollbackTargets (st.ledger.map Prod.fst) steps).reverse ∧
    (∀ (k : Int) (n : Nat),
      ((k ≤ 0 ∨ (n : Int) < k) → clampSteps k n = n) ∧
      (0 < k → k ≤ (n : Int) → clampSteps k n = k.toNat)) ∧
    (∀ (l : List String) (k : Int),
      rollbackTargets l k = l.drop (l.length - clampSteps k l.length)) := by
  refine ⟨?_, ?_, fun l k => rfl⟩
  · cases hemp : (st.ledger.map Prod.fst).isEmpty with
    | true =>
      rw [List.isEmpty_iff] at hemp
      have h2 := congrArg (fun p => p.2.1) h
      simp only [runDown, hemp] at h2
      simp at h2
      subst h2
      rw [hemp]
      simp [rollbackTargets]
    | false =>
      have h2 := congrArg (fun p => p.2.1) h
      have h4 := congrArg (fun p => p.2.2.2) h
      simp only [runDown, hemp, Bool.false_eq_true, if_false] at h2 h4
      have hsucc : downLoop exec ms
          (rollbackTargets (st.ledger.map Prod.fst) steps).reverse st =
          ((downLoop exec ms
              (rollbackTargets (st.ledger.map Prod.fst) steps).reverse st).1,
           (downLoop exec ms
              (rollbackTargets (st.ledger.map Prod.fst) steps).reverse st).2.1,
           (downLoop exec ms
              (rollbackTargets (st.ledger.map Prod.fst) steps).reverse st).2.2.1,
           none) := by
        rw [← h4]
      rw [← h2]
      exact downLoop_ok_names exec ms _ _ _ _ _ hsucc
  · intro k n
    constructor
    · intro hc; simp [clampSteps, hc]
    · intro h1 h2
      have hc : ¬ (k ≤ 0 ∨ (n : Int) < k) := by omega
      simp [clampSteps, hc]

/-- C6: during `Down`, a rollback target whose identity is missing from
the freshly loaded on-disk set fails the run with the file-missing
error, and one whose down script is empty fails it with the
no-down-script error; in both cases the failing step contributes no
events at all (in particular it never begins a transaction), the
database and ledger state is exactly the state left by the
already-rolled-back steps, and those earlier rollbacks are kept. -/
theorem down_missing_or_irreversible_preconditions
    (exec : String → σ → Option σ) (ms : List Migration)
    (pre rest : List String) (name : String) (st st1 : DBState σ)
    (done1 : List String) (tr1 : List Ev)
    (hpre : downLoop exec ms pre st = (st1, done1, tr1, none)) :
    (getMigrationByFilename ms name = none →
      downLoop exec ms (pre ++ name :: rest) st =
        (st1, done1, tr1, some (Err.migrationFileMissing name))) ∧
    (∀ m : Migration,
      getMigrationByFilename ms name = some m → m.Down = "" →
      downLoop exec ms (pre ++ name :: rest) st =
        (st1, done1, tr1, some (Err.noDownScript name))) := by
  constructor
  · intro hmiss
    rw [downLoop_ok_append exec ms pre (name :: rest) st st1 done1 tr1 hpre]
    simp [downLoop, downStep_of_missing exec ms name st1 hmiss]
  · intro m hfound hd
    rw [downLoop_ok_append exec ms pre (name :: rest) st st1 done1 tr1 hpre]
    simp [downLoop, downStep_of_noDown exec ms name m st1 hfound hd]

/-- C2: if a statement of a pending migration's up script fails during
`Up`, that migration's transaction rolls back in full — the run ends in
exactly the state left by the migrations committed earlier in the same
run (so none of the failing migration's statements has any effect and
its identity is not in the ledger, while the earlier migrations' ledger
rows are all present) — and the run aborts immediately with the
statement error, the failing migration's block being the last trace
events (each statement attempted once, no retry). -/
theorem up_statement_failure_atomic (exec : String → σ → Option σ)
    (ms pre post : List Migration) (m : Migration) (st st1 : DBState σ)
    (tr1 : List Ev) (t : String)
    (hsplit : getPending ms (st.ledger.map Prod.fst) = pre ++ m :: post)
    (hpre : upFrom exec pre st = (st1, tr1, none))
    (hfail : (execStmts exec (goSplitSemi m.Up) st1.data).2 = Except.error t)
    (hnew : m.Filename ∉ st.ledger.map Prod.fst)
    (hnotpre : ∀ p ∈ pre, p.Filename ≠ m.Filename) :
    runUp exec ms st =
      (st1,
       Ev.ensureLedger :: Ev.listApplied ::
         (tr1 ++ (Ev.beginTx ::
           (execStmts exec (goSplitSemi m.Up) st1.data).1 ++ [Ev.rollback])),
       some (Err.statementError t)) ∧
    st1.ledger = st.ledger ++ pre.map (fun p => (p.Filename, p.Checksum)) ∧
    m.Filename ∉ st1.ledger.map Prod.fst := by
  have hled := upFrom_ok_ledger exec pre st st1 tr1 hpre
  have habs : m.Filename ∉ st1.ledger.map Prod.fst := by
    rw [hled]
    simp only [List.map_append, List.mem_append]
    rintro (hc | hc)
    · exact hnew hc
    · simp only [List.map_map, List.mem_map, Function.comp] at hc
      obtain ⟨p, hp, he⟩ := hc
      exact hnotpre p hp he
  refine ⟨?_, hled, habs⟩
  have hblock : upFrom exec (m :: post) st1 =
      (st1,
       Ev.beginTx :: (execStmts exec (goSplitSemi m.Up) st1.data).1
         ++ [Ev.rollback],
       some (Err.statementError t)) := by
    simp only [upFrom]
    rw [applyMigration_of_error exec m st1 t hfail]
  simp only [runUp, hsplit]
  rw [upFrom_ok_append exec pre (m :: post) st st1 tr1 hpre, hblock]

/-- C7: applying a migration whose identity is absent from the ledger
and then immediately rolling it back restores the ledger to its
pre-apply row list: the appended row is deleted again and nothing else
changes, so the identity is absent and no partial row remains. -/
theorem apply_then_rollback_restores_ledger (exec : String → σ → Option σ)
    (m : Migration) (st st1 st2 : DBState σ) (tr1 tr2 : List Ev)
    (habs : m.Filename ∉ st.ledger.map Prod.fst)
    (h1 : applyMigration exec m st = (st1, tr1, none))
    (h2 : rollbackMigration exec m st1 = (st2, tr2, none)) :
    st2.ledger = st.ledger ∧ m.Filename ∉ st2.ledger.map Prod.fst := by
  have hall : ∀ e ∈ st.ledger, (decide (e.1 ≠ m.Filename)) = true := by
    intro e he
    simp only [decide_eq_true_eq]
    intro hc
    exact habs (by simpa [← hc] using List.mem_map_of_mem Prod.fst he)
  cases hr : (execStmts exec (goSplitSemi m.Up) st.data).2 with
  | error t =>
    rw [applyMigration_of_error exec m st t hr] at h1
    simp at h1
  | ok d =>
    rw [applyMigration_of_ok exec m st d hr] at h1
    have hst1 : st1 = ⟨d, st.ledger ++ [(m.Filename, m.Checksum)]⟩ :=
      (congrArg Prod.fst h1).symm
    subst hst1
    cases hr2 : (execStmts exec (goSplitSemi m.Down) d).2 with
    | error t =>
      rw [rollbackMigration_of_error exec m _ t hr2] at h2
      simp at h2
    | ok d2 =>
      rw [rollbackMigration_of_ok exec m _ d2 hr2] at h2
      have hst2 : st2 = ⟨d2,
          (st.ledger ++ [(m.Filename, m.Checksum)]).filter
            (fun e => e.1 ≠ m.Filename)⟩ :=
        (congrArg Prod.fst h2).symm
      have hl : st2.ledger = st.ledger := by
        rw [hst2]
        simp only [List.filter_append, List.filter_eq_self.mpr hall]
        simp
      exact ⟨hl, by rw [hl]; exact habs⟩

/-- C5 (amended): of the four ledger operations, the two mutating ones —
`recordApplied` (`recordMigrationInTx`) and `recordRemoved`
(`removeMigrationInTx`) — always execute inside the open transaction of
the migration being applied or rolled back (so the schema change and
the ledger update commit or abort as one unit), whereas `ensureLedger`
(`CreateMigrationsTable`) and `listApplied` (`GetAppliedMigrations`)
always execute standalone, outside any transaction. -/
theorem ledger_mutations_inside_migration_transaction
    (exec : String → σ → Option σ) (ms : List Migration) (st : DBState σ)
    (steps : Int) :
    (∀ (i : Nat) (e : Ev), ((runUp exec ms st).2.1).get? i = some e →
      (isMutEv e = true → inTxAt ((runUp exec ms st).2.1) i = true) ∧
      (isReadEv e = true → inTxAt ((runUp exec ms st).2.1) i = false)) ∧
    (∀ (i : Nat) (e : Ev),
      ((runDown exec ms steps st).2.2.1).get? i = some e →
      (isMutEv e = true →
        inTxAt ((runDown exec ms steps st).2.2.1) i = true) ∧
      (isReadEv e = true →
        inTxAt ((runDown exec ms steps st).2.2.1) i = false)) := by
  constructor
  · intro i e hget
    exact wfTr_positions _ false (runUp_wf exec ms st) i e hget
  · intro i e hget
    exact wfTr_positions _ false (runDown_wf exec ms steps st) i e hget

/-- C5 counterexample: in a concrete `Up` run the very first ledger
operation, `ensureLedger` (`CreateMigrationsTable`), executes outside
any transaction — `Up` issues it standalone before the migration loop —
refuting the claim that each of the four ledger operations runs inside
the migration's transaction. -/
theorem ledger_op_outside_transaction_cx :
    ¬ (∀ (i : Nat) (e : Ev),
        ((runUp logExec [migA] st0).2.1).get? i = some e →
        isLedgerEv e = true →
        inTxAt ((runUp logExec [migA] st0).2.1) i = true) := by
  intro hall
  have h := hall 0 Ev.ensureLedger (by decide) (by decide)
  exact absurd h (by decide)

/-- C9: the ledger's checksum column is write-only: no operation ever
reads it back, so any two database states that agree on the data and on
the ledger's identity column — however their stored checksums differ —
give identical `Up`, `Down` and `Status` behaviour (same traces, same
errors, same resulting data and identity column; edited historical
migration files are undetectable). -/
theorem ledger_checksums_never_compared (exec : String → σ → Option σ)
    (ms : List Migration) (steps : Int) (st1 st2 : DBState σ)
    (hd : st1.data = st2.data)
    (hn : st1.ledger.map Prod.fst = st2.ledger.map Prod.fst) :
    ((runUp exec ms st1).1.data = (runUp exec ms st2).1.data ∧
     (runUp exec ms st1).1.ledger.map Prod.fst =
       (runUp exec ms st2).1.ledger.map Prod.fst ∧
     (runUp exec ms st1).2 = (runUp exec ms st2).2) ∧
    ((runDown exec ms steps st1).1.data =
       (runDown exec ms steps st2).1.data ∧
     (runDown exec ms steps st1).1.ledger.map Prod.fst =
       (runDown exec ms steps st2).1.ledger.map Prod.fst ∧
     (runDown exec ms steps st1).2 = (runDown exec ms steps st2).2) ∧
    runStatus ms st1 = runStatus ms st2 := by
  refine ⟨?_, ?_, ?_⟩
  · simp only [runUp]
    rw [hn]
    obtain ⟨ud, un, ue⟩ := upFrom_resp exec
      (getPending ms (st2.ledger.map Prod.fst)) st1 st2 hd hn
    have utr := congrArg Prod.fst ue
    have uerr := congrArg Prod.snd ue
    exact ⟨ud, un, by rw [utr, uerr]⟩
  · simp only [runDown]
    rw [hn]
    cases hemp : (st2.ledger.map Prod.fst).isEmpty with
    | true => simp [hd, hn]
    | false =>
      simp only [Bool.false_eq_true, if_false]
      obtain ⟨ud, un, ue⟩ := downLoop_resp exec ms
        (rollbackTargets (st2.ledger.map Prod.fst) steps).reverse st1 st2 hd hn
      have udone := congrArg Prod.fst ue
      have utr := congrArg (fun p => p.2.1) ue
      have uerr := congrArg (fun p => p.2.2) ue
      simp only [] at utr uerr
      exact ⟨ud, un, by rw [udone, utr, uerr]⟩
  · simp [runStatus, hn]

end Migr8

namespace Migr8

theorem md5_length (msg : List Nat) : (md5 msg).length = 16 := by
  simp [md5, wordLE]

theorem hexBytes_flatten_length (bytes : List Nat) :
    ((bytes.map hexByte).flatten).length = 2 * bytes.length := by
  induction bytes with
  | nil => rfl
  | cons b rest ih =>
    simp only [List.map_cons, List.flatten_cons, List.length_append, ih,
      hexByte, List.length_cons, List.length_nil, List.length_map]
    omega

theorem generateChecksum_length (content : String) :
    (generateChecksum content).length = 32 := by
  show (((md5 (strBytes content)).map hexByte).flatten).length = 32
  rw [hexBytes_flatten_length, md5_length]

theorem hexDigit_isHexChar : ∀ n : Nat, n < 16 → isHexChar (hexDigit n) = true := by
  decide

theorem generateChecksum_all_hex (content : String) :
    (generateChecksum content).data.all isHexChar = true := by
  show (((md5 (strBytes content)).map hexByte).flatten).all isHexChar
    = true
  rw [List.all_eq_true]
  intro c hc
  rw [List.mem_flatten] at hc
  obtain ⟨l, hl, hcl⟩ := hc
  rw [List.mem_map] at hl
  obtain ⟨b, _, rfl⟩ := hl
  simp only [hexByte, List.mem_cons, List.not_mem_nil, or_false] at hcl
  rcases hcl with rfl | rfl
  · exact hexDigit_isHexChar _ (Nat.mod_lt _ (by omega))
  · exact hexDigit_isHexChar _ (Nat.mod_lt _ (by omega))

theorem daysInMonth_le (y m : Nat) : daysInMonth y m ≤ 31 := by
  unfold daysInMonth
  split_ifs <;> omega

theorem parseTimestamp_fields (s : String) (t : Time)
    (h : parseTimestamp s = some t) :
    1 ≤ t.month ∧ t.month ≤ 12 ∧ 1 ≤ t.day ∧ t.day ≤ 31 ∧
    t.hour ≤ 23 ∧ t.minute ≤ 59 ∧ t.second ≤ 59 := by
  simp only [parseTimestamp] at h
  split_ifs at h with h1 h2
  · rw [Option.some_inj] at h
    subst h
    obtain ⟨hmo1, hmo2, hd1, hd2, hh, hmi, hs⟩ := h2
    exact ⟨hmo1, hmo2, hd1, le_trans hd2 (daysInMonth_le _ _), hh, hmi, hs⟩

theorem zero_before_valid (s : String) (t : Time)
    (hp : parseTimestamp s = some t) (hy : 1 ≤ t.year) (hne : t ≠ zeroTime) :
    Time.before zeroTime t = true := by
  obtain ⟨h1, h2, h3, h4, h5, h6, h7⟩ := parseTimestamp_fields s t hp
  obtain ⟨Y, MO, D, H, MI, SEC⟩ := t
  have hne' : ¬ (Y = 1 ∧ MO = 1 ∧ D = 1 ∧ H = 0 ∧ MI = 0 ∧ SEC = 0) := by
    intro hc
    exact hne (by simp [zeroTime, hc.1, hc.2.1, hc.2.2.1, hc.2.2.2.1,
      hc.2.2.2.2.1, hc.2.2.2.2.2])
  simp only [Time.before, Time.key, zeroTime, decide_eq_true_eq]
  dsimp only at h1 h2 h3 h4 h5 h6 h7 hy ⊢
  omega

/-- C8: a migration's checksum is computed at load time over the up
script alone: the record assembled by `LoadMigrations` carries
`generateChecksum up`, which is unchanged under any replacement of the
down script, is a deterministic function of the up-script content, and
is the 32-character lowercase-hex encoding of the 128-bit (16-byte) MD5
digest; the final conjunct checks the MD5 embedding against the
standard test vector for the empty message. -/
theorem checksum_covers_up_script_only (ts name dir up down down' : String) :
    (assembleMigration ts name dir up down).Checksum =
      (assembleMigration ts name dir up down').Checksum ∧
    (assembleMigration ts name dir up down).Checksum = generateChecksum up ∧
    (generateChecksum up).length = 32 ∧
    (generateChecksum up).data.all isHexChar = true ∧
    (md5 (strBytes up)).length = 16 ∧
    Migr8.generateChecksum "" = "d41d8cd98f00b204e9800998ecf8427e" :=
  ⟨rfl, rfl, generateChecksum_length up, generateChecksum_all_hex up,
    md5_length _, by decide⟩

/-- C10 (amended): a filename whose 14-digit prefix is not a valid
`YYYYMMDDHHMMSS` datetime (month 99) is accepted by the filename
pattern rather than rejected; the timestamp parse error is silently
discarded and the migration is loaded with the zero time value
0001-01-01 00:00:00; consequently it sorts (by the load-time comparator
`Time.before`) before every validly-dated migration whose date is
strictly after the zero value — but not before one dated exactly at the
zero value (a tie) or in year 0000, which the pattern also accepts. -/
theorem invalid_timestamp_loads_as_zero_value (s : String) (t : Time) :
    matchMigrationFile "20239901000000_bad.up.sql" =
      some ("20239901000000", "bad", "up") ∧
    parseTimestamp "20239901000000" = none ∧
    loadedTimestamp "20239901000000" = zeroTime ∧
    (parseTimestamp s = some t → 1 ≤ t.year → t ≠ zeroTime →
      Time.before zeroTime t = true) :=
  ⟨by decide, by decide, by decide,
   fun hp hy hne => zero_before_valid s t hp hy hne⟩

/-- C10 counterexample: the malformed-prefix migration does not sort
before every validly-dated one: it ties with a migration validly dated
exactly 0001-01-01 00:00:00 (the zero value) and sorts after a
migration validly dated in year 0000, both accepted by the parser. -/
theorem invalid_timestamp_not_always_first_cx :
    parseTimestamp "00010101000000" = some zeroTime ∧
    Time.before (loadedTimestamp "20239901000000") zeroTime = false ∧
    parseTimestamp "00001231235959" = some ⟨0, 12, 31, 23, 59, 59⟩ ∧
    Time.before (⟨0, 12, 31, 23, 59, 59⟩ : Time)
      (loadedTimestamp "20239901000000") = true :=
  ⟨by decide, by decide, by decide, by decide⟩

/-! ## Witnesses: concrete instances of the claim theorems -/

/-- Witness for C1 at a two-migration set with one applied identity. -/
theorem getPending_set_difference_witness :
    migA ∈ getPending [migA, migB] ["20230102120000_b"] ↔
      (migA ∈ [migA, migB] ∧ ¬ migA.Filename ∈ ["20230102120000_b"]) :=
  (getPending_set_difference [migA, migB] ["20230102120000_b"]).2 migA

/-- Witness for C2: a concrete two-migration run whose second migration
fails on its second statement ends in the state left by the first. -/
theorem up_statement_failure_atomic_witness :
    runUp logExec [migA, migB] st0 =
      (st1c,
       Ev.ensureLedger :: Ev.listApplied ::
         (tr1c ++ (Ev.beginTx ::
           (execStmts logExec (goSplitSemi migB.Up) st1c.data).1
             ++ [Ev.rollback])),
       some (Err.statementError "BAD")) ∧
    migB.Filename ∉ st1c.ledger.map Prod.fst :=
  ⟨(up_statement_failure_atomic logExec [migA, migB] [migA] [] migB st0 st1c
      tr1c "BAD" (by decide) (by decide) rfl (by decide)
      (by decide)).1,
   (up_statement_failure_atomic logExec [migA, migB] [migA] [] migB st0 st1c
      tr1c "BAD" (by decide) (by decide) rfl (by decide)
      (by decide)).2.2⟩

/-- Witness for C3: `Down(5)` against a two-entry ledger rolls back both
entries, most recent first (spec §8 Scenario C). -/
theorem down_clamps_and_rolls_back_suffix_witness :
    ["20230102120000_b", "20230101120000_a"] =
      (rollbackTargets (stTwo.ledger.map Prod.fst) 5).reverse :=
  (down_clamps_and_rolls_back_suffix okExec [migA, migB] 5 stTwo ⟨(), []⟩
    ["20230102120000_b", "20230101120000_a"]
    [Ev.listApplied,
     Ev.beginTx, Ev.stmt "DROP B", Ev.recordRemoved "20230102120000_b",
     Ev.commit,
     Ev.beginTx, Ev.stmt "DROP A", Ev.recordRemoved "20230101120000_a",
     Ev.commit]
    (by decide)).1

/-- Witness for C4: the split/trim/skip description evaluated on a
concrete script and data state. -/
theorem statement_splitting_naive_witness :
    cleanStatements "SELECT 1;  -- cmt;  ;INSERT INTO t VALUES ('a;b')" =
      ["SELECT 1", "INSERT INTO t VALUES ('a", "b')"] :=
  (statement_splitting_naive Unit).2.2.2

/-- Witness for C5 (amended): in a concrete run, the `recordApplied`
event (trace position 4) is inside the migration's transaction. -/
theorem ledger_mutations_inside_migration_transaction_witness :
    inTxAt ((runUp logExec [migA] st0).2.1) 4 = true :=
  ((ledger_mutations_inside_migration_transaction logExec [migA] st0 0).1 4
    (Ev.recordApplied "20230101120000_a" "ca") (by decide)).1 (by decide)

/-- Witness for C6: rolling back an identity absent from the on-disk
set fails with the file-missing error, before any transaction. -/
theorem down_missing_or_irreversible_preconditions_witness :
    downLoop logExec [] ([] ++ "X" :: []) st0 =
      (st0, [], [], some (Err.migrationFileMissing "X")) :=
  (down_missing_or_irreversible_preconditions logExec [] [] [] "X" st0 st0
    [] [] (by decide)).1 (by decide)

/-- Witness for C7: apply `migA` to a one-row ledger, roll it back, and
the ledger is the original row list again. -/
theorem apply_then_rollback_restores_ledger_witness :
    (⟨(), [("x", "cx")]⟩ : DBState Unit).ledger = stOne.ledger ∧
    migA.Filename ∉
      ((⟨(), [("x", "cx")]⟩ : DBState Unit)).ledger.map Prod.fst :=
  apply_then_rollback_restores_ledger okExec migA stOne
    ⟨(), [("x", "cx"), ("20230101120000_a", "ca")]⟩ ⟨(), [("x", "cx")]⟩
    [Ev.beginTx, Ev.stmt "CREATE A",
     Ev.recordApplied "20230101120000_a" "ca", Ev.commit]
    [Ev.beginTx, Ev.stmt "DROP A",
     Ev.recordRemoved "20230101120000_a", Ev.commit]
    (by decide) (by decide) (by decide)

/-- Witness for C8: the load-time checksum of an up script is untouched
by changing the down script. -/
theorem checksum_covers_up_script_only_witness :
    (assembleMigration "20230101120000" "a" "a.up.sql" "CREATE A"
        "DROP A").Checksum =
      (assembleMigration "20230101120000" "a" "a.up.sql" "CREATE A"
        "").Checksum :=
  (checksum_covers_up_script_only "20230101120000" "a" "a.up.sql" "CREATE A"
    "DROP A" "").1

/-- Witness for C9: two ledgers with identical identities but different
stored checksums give the same `Status` report. -/
theorem ledger_checksums_never_compared_witness :
    runStatus [migA, migB] stTwo = runStatus [migA, migB] stTwo' :=
  (ledger_checksums_never_compared okExec [migA, migB] 1 stTwo stTwo'
    (by decide) (by decide)).2.2

/-- Witness for C10 (amended): the zero value sorts before a migration
validly dated 2023-01-01 12:00:00. -/
theorem invalid_timestamp_loads_as_zero_value_witness :
    Time.before zeroTime ⟨2023, 1, 1, 12, 0, 0⟩ = true :=
  (invalid_timestamp_loads_as_zero_value "20230101120000"
    ⟨2023, 1, 1, 12, 0, 0⟩).2.2.2 (by decide) (by decide) (by decide)

end Migr8
